import Mathlib

/-!
Verification development for the Trifivend call-turn streaming orchestration
pipeline (src/main.py, src/app/voicebot.py, src/agent/speak.py).

Text is modelled as `List Char` (Python `str`); the asynchronous turn pipeline
is modelled by explicit state passing and traces of queue operations, with the
external SaaS collaborators (text generator, speech synthesizer) abstracted as
behaviour parameters, exactly as the spec scopes them.
-/

set_option maxHeartbeats 1000000

namespace Trifivend

/-- Text is modelled as a list of characters (Python `str`). -/
abbrev Str := List Char

/-- Whitespace test used by Python `str.split()` / `str.strip()`. -/
def isWS (c : Char) : Bool := c.isWhitespace

/-- Worker for `splitWS`: `acc` holds the characters of the word currently
being scanned, in reverse order. -/
def splitWSAux : Str → Str → List Str
  | [], acc => if acc = [] then [] else [acc.reverse]
  | c :: cs, acc =>
    if isWS c then
      (if acc = [] then splitWSAux cs [] else acc.reverse :: splitWSAux cs [])
    else splitWSAux cs (c :: acc)

/-- Python `prompt.split()` with no separator: split on runs of whitespace and
discard empty pieces.  Embeds the `prompt.split()` call of
`_trim_system_prompt` (src/main.py line 140). -/
def splitWS (l : Str) : List Str := splitWSAux l []

/-- Python `" ".join(tokens)`: concatenate the tokens with a single space
between consecutive ones (src/main.py line 143). -/
def joinWS : List Str → Str
  | [] => []
  | [w] => w
  | w :: x :: ws => w ++ ' ' :: joinWS (x :: ws)

/-- `SYSTEM_PROMPT_TOKEN_LIMIT` (src/main.py line 68, default 300). -/
def SYSTEM_PROMPT_TOKEN_LIMIT : Nat := 300

/-- Embeds `_trim_system_prompt` (src/main.py lines 137–143): empty prompt maps
to the empty string; a prompt of at most `SYSTEM_PROMPT_TOKEN_LIMIT`
whitespace-separated words is returned unchanged; otherwise the first
`SYSTEM_PROMPT_TOKEN_LIMIT` words are joined with single spaces. -/
def trim_system_prompt (prompt : Str) : Str :=
  if prompt = [] then []
  else
    let tokens := splitWS prompt
    if tokens.length ≤ SYSTEM_PROMPT_TOKEN_LIMIT then prompt
    else joinWS (tokens.take SYSTEM_PROMPT_TOKEN_LIMIT)

/-! ### Fragment buffer (src/app/voicebot.py) -/

/-- `_SENTENCE_DELIMITERS` (src/app/voicebot.py line 30). -/
def SENTENCE_DELIMITERS : List Char := ['.', '?', '!', '\n']

/-- `_MIN_FLUSH_CHARS` (src/app/voicebot.py line 31). -/
def MIN_FLUSH_CHARS : Nat := 60

/-- `_MAX_FLUSH_CHARS` (src/app/voicebot.py line 32). -/
def MAX_FLUSH_CHARS : Nat := 80

/-- Python `s.strip()`: remove leading and trailing whitespace. -/
def stripWS (s : Str) : Str := ((s.dropWhile isWS).reverse.dropWhile isWS).reverse

/-- The flush test of `stream_coldcall_reply` (src/app/voicebot.py lines
78–81): `len(buffer) >= _MAX_FLUSH_CHARS or any(d in buffer for d in
_SENTENCE_DELIMITERS) and len(buffer) >= _MIN_FLUSH_CHARS` (Python `and` binds
tighter than `or`). -/
def flushCond (buffer : Str) : Bool :=
  decide (MAX_FLUSH_CHARS ≤ buffer.length) ||
    (SENTENCE_DELIMITERS.any (fun d => buffer.contains d) &&
      decide (MIN_FLUSH_CHARS ≤ buffer.length))

/-- The token loop of `stream_coldcall_reply` (src/app/voicebot.py lines
69–92): falsy deltas (`None` or the empty string, modelled as `[]`) are
skipped; each other delta is appended to the buffer; when the flush test
passes, the stripped buffer is emitted (unless empty) and the buffer is reset;
when the stream ends, the stripped remainder is emitted (unless empty). -/
def coldcallAux : Str → List Str → List Str
  | buffer, [] =>
    let tail := stripWS buffer
    if tail = [] then [] else [tail]
  | buffer, delta :: deltas =>
    if delta = [] then coldcallAux buffer deltas
    else
      let buffer1 := buffer ++ delta
      if flushCond buffer1 then
        (if stripWS buffer1 = [] then [] else [stripWS buffer1]) ++ coldcallAux [] deltas
      else coldcallAux buffer1 deltas

/-- Embeds the fragment-buffer behaviour of `stream_coldcall_reply`
(src/app/voicebot.py lines 52–92), as the function from the sequence of
streamed content deltas to the sequence of flushed fragments. -/
def stream_coldcall_reply (deltas : List Str) : List Str := coldcallAux [] deltas

/-- The Fragment Buffer exactly as the specification words it (§4.1 and claim
C4): each token is accumulated, and after each append the two release
conditions are tested — (a) buffer length at least the hard maximum, or (b)
buffer contains a sentence-terminating character and has length at least the
soft minimum; on flush the trimmed buffer is emitted as one fragment (with
empty/whitespace-only flushes suppressed) and the buffer resets; at the end of
the stream, any non-empty trimmed remainder is emitted. -/
def flushFragmentsSpec : Str → List Str → List Str
  | buffer, [] =>
    let tail := stripWS buffer
    if tail = [] then [] else [tail]
  | buffer, tok :: toks =>
    let buffer1 := buffer ++ tok
    if flushCond buffer1 then
      (if stripWS buffer1 = [] then [] else [stripWS buffer1]) ++ flushFragmentsSpec [] toks
    else flushFragmentsSpec buffer1 toks

/-- `flush_fragments(token_stream)` of spec §4.1, from the empty buffer. -/
def flush_fragments (tokens : List Str) : List Str := flushFragmentsSpec [] tokens

/-- The spec §8 example token sequence for the Fragment Buffer. -/
def c4Tokens : List Str :=
  ["Hi", ", ", "there", ". ", "How", " are", " you", "?"].map String.data

/-! ### Turn orchestration (src/main.py, `_stream_reply_audio`)

The asynchronous turn pipeline is modelled by explicit state passing.  The
two external streaming collaborators are black-box behaviour parameters, as
the spec scopes them: a generator run is the list of text chunks it yields
plus whether it then raises, and likewise for a synthesis run. -/

/-- An audio byte chunk, abstracted to an identifier. -/
abbrev Chunk := Nat

/-- Ghost provenance label on a pushed audio chunk: which part of the turn
pushed it (backchannel filler, the reply fragment with the given index, or
the silence continuation).  Erasing the labels yields exactly the bytes the
Python queue holds; the labels are verification instrumentation only. -/
inductive Source
  | backchannel
  | reply (fragIdx : Nat)
  | continuation
deriving DecidableEq

/-- An item of the per-call audio relay queue
`asyncio.Queue[Optional[bytes]]` (src/main.py line 441): an audio chunk or
the end-of-turn sentinel `None`. -/
inductive QItem
  | chunk (src : Source) (c : Chunk)
  | sentinel
deriving DecidableEq

/-- An application-level event pushed onto the per-call observer/SSE queue by
`_enqueue` (src/main.py lines 582–587), restricted to the fields the claims
mention. -/
inductive SseEvent
  | backchannelEv
  | replyEv (user bot : Str)
  | continuationEv (bot : Str)
  | errorEv
deriving DecidableEq

/-- One operation of the turn pipeline observable on the two per-call queues:
a push onto the audio relay queue, or an event onto the observer queue. -/
inductive Op
  | push (item : QItem)
  | event (e : SseEvent)
deriving DecidableEq

/-- Behaviour of one streaming text-generation call
(`stream_coldcall_reply`): the text chunks it yields, and whether it then
raises instead of ending normally. -/
structure GenRun where
  chunks : List Str
  raised : Bool

/-- Behaviour of one streaming synthesis call (`stream_text_to_speech` on a
given text): the audio chunks it yields, and whether it then raises instead
of ending normally (src/agent/speak.py lines 307–312 raise `RuntimeError` on
an upstream failure — the spec's SynthesisError). -/
structure SynthRun where
  chunks : List Chunk
  raised : Bool

/-- State threaded through `_stream_reply_audio`: the trace of performed
queue operations, the nonlocal `append` flag, and the accumulated fragment
texts `parts` (src/main.py lines 632–633). -/
structure BodyState where
  ops : List Op
  app : Bool
  parts : List Str

/-- The reply fragment loop of `_stream_reply_audio` (src/main.py lines
668–684): each generator chunk is stripped and skipped when empty; otherwise
it is appended to `parts` (which also sets `first_chunk_event`), synthesized,
and every audio chunk is pushed; an exception from the synthesis stream
propagates immediately (second component `false`); otherwise `append` is set
once audio was written and the loop continues.  Fragment pushes carry the
ghost label `Source.reply idx` with `idx` the fragment's index in `parts`. -/
def replyLoop (synth : Str → SynthRun) : List Str → BodyState → BodyState × Bool
  | [], st => (st, true)
  | chunk :: rest, st =>
    let text := stripWS chunk
    if text = [] then replyLoop synth rest st
    else
      let idx := st.parts.length
      let st1 : BodyState := { st with parts := st.parts ++ [text] }
      let s := synth text
      let st2 : BodyState :=
        { st1 with
          ops := st1.ops ++ s.chunks.map (fun c => Op.push (QItem.chunk (Source.reply idx) c)) }
      if s.raised then (st2, false)
      else replyLoop synth rest { st2 with app := st2.app || !s.chunks.isEmpty }

/-- Whether the continuation's activity event is observed set at its t-th
check: the event becomes set between checks `k-1` and `k` when
`actAt = some k`, and `none` means the caller stays silent throughout.  This
encoding makes the signal monotone by construction, as an `asyncio.Event`
that is only ever `set()` is. -/
def actSet (actAt : Option Nat) (t : Nat) : Bool :=
  match actAt with
  | none => false
  | some k => decide (k ≤ t)

/-- The per-chunk push loop of `_stream_continuation` (src/main.py lines
722–728): before each push the activity event is checked and the loop breaks
once the event is set.  Returns the pushed ops, the next check index, whether
audio was written (`wrote_audio`), and whether the synthesis stream was
consumed to its end — breaking abandons the stream, so a pending exception
at its end never surfaces. -/
def contAudioLoop (actAt : Option Nat) : List Chunk → Nat → List Op × Nat × Bool × Bool
  | [], t => ([], t, false, true)
  | c :: cs, t =>
    if actSet actAt t then ([], t + 1, false, false)
    else
      let r := contAudioLoop actAt cs (t + 1)
      (Op.push (QItem.chunk Source.continuation c) :: r.1, r.2.1, true, r.2.2.2)

/-- How `_stream_continuation` exits: its loop finished, the top-of-iteration
activity check fired (`return`), or an exception propagated. -/
inductive ContExit
  | finished
  | returned
  | raised
deriving DecidableEq

/-- State threaded through `_stream_continuation`: trace, check index, the
nonlocal `append` flag, and `continuation_parts`. -/
structure ContState where
  ops : List Op
  t : Nat
  app : Bool
  cparts : List Str

/-- The text loop of `_stream_continuation` (src/main.py lines 711–731): each
iteration first checks the activity event and returns if it is set; the chunk
is stripped and skipped when empty; otherwise it is recorded and synthesized
with the per-chunk cancellation checks of `contAudioLoop`; a synthesis
exception (only observable when the stream was fully consumed) propagates. -/
def contTextLoop (actAt : Option Nat) (synth : Str → SynthRun) :
    List Str → ContState → ContState × ContExit
  | [], st => (st, ContExit.finished)
  | chunk :: rest, st =>
    if actSet actAt st.t then ({ st with t := st.t + 1 }, ContExit.returned)
    else
      let st1 : ContState := { st with t := st.t + 1 }
      let text := stripWS chunk
      if text = [] then contTextLoop actAt synth rest st1
      else
        let st2 : ContState := { st1 with cparts := st1.cparts ++ [text] }
        let s := synth text
        let r := contAudioLoop actAt s.chunks st2.t
        let st3 : ContState := { st2 with ops := st2.ops ++ r.1, t := r.2.1 }
        if s.raised && r.2.2.2 then (st3, ContExit.raised)
        else contTextLoop actAt synth rest { st3 with app := st3.app || r.2.2.1 }

/-- The inputs of one execution of `_stream_reply_audio`, with the external
collaborators and the caller's timing abstracted as behaviour parameters. -/
structure TurnParams where
  userInput : Str
  gen : GenRun
  contGen : GenRun
  synth : Str → SynthRun
  turn : Nat
  contWindow : ℚ
  activityWithinWindow : Bool
  contActAt : Option Nat

/-- `is_first_turn = (turn == 1)` after the increment (src/main.py lines
638–640); `TurnParams.turn` is the counter value after the increment. -/
def is_first_turn (p : TurnParams) : Bool := p.turn == 1

/-- The reply fragment loop of a turn run from its initial state
(src/main.py lines 632–633: `append = False`, `parts = []`, empty trace). -/
def replyRun (p : TurnParams) : BodyState × Bool :=
  replyLoop p.synth p.gen.chunks ⟨[], false, []⟩

/-- The `final_text` of a turn: `" ".join(parts).strip()`
(src/main.py line 686). -/
def finalTextOf (p : TurnParams) : Str :=
  stripWS (joinWS (replyRun p).1.parts)

/-- The nonempty stripped texts among a list of generator chunks (those that
pass the guards at src/main.py lines 669–671 and 716–718). -/
def fragTexts (chunks : List Str) : List Str :=
  (chunks.map stripWS).filter (fun t => !t.isEmpty)

/-- The turn state after the reply loop, with the reply event appended
exactly when `final_text` is non-empty (src/main.py lines 686–698). -/
def postReplyState (p : TurnParams) : BodyState :=
  if (finalTextOf p).isEmpty then (replyRun p).1
  else { (replyRun p).1 with
    ops := (replyRun p).1.ops ++ [Op.event (SseEvent.replyEv p.userInput (finalTextOf p))] }

/-- Trace predicate: an observer event announcing an unsolicited follow-up
utterance. -/
def isContinuationEv : Op → Bool
  | Op.event (SseEvent.continuationEv _) => true
  | _ => false

/-- Trace predicate: an audio chunk pushed by the silence continuation. -/
def isContinuationChunk : Op → Bool
  | Op.push (QItem.chunk Source.continuation _) => true
  | _ => false

/-- The continuation gate
`if is_first_turn and final_text and CONTINUATION_SILENCE_SECONDS > 0`
(src/main.py line 740); `TurnParams.contWindow` models the configured
`CONTINUATION_SILENCE_SECONDS` (default 2.0). -/
def continuationGate (p : TurnParams) : Bool :=
  is_first_turn p && !(finalTextOf p).isEmpty && decide (0 < p.contWindow)

/-- `_stream_continuation` (src/main.py lines 706–738) from the turn state at
its call site: runs the text loop on the continuation generator's chunks and,
when the loop finishes without exception and the activity event is still
unset, pushes one continuation event for a non-empty follow-up.  The second
component is `false` when an exception propagates out of it. -/
def stream_continuation (p : TurnParams) (st : BodyState) : BodyState × Bool :=
  let r := contTextLoop p.contActAt p.synth p.contGen.chunks ⟨st.ops, 0, st.app, []⟩
  match r.2 with
  | ContExit.returned => ({ st with ops := r.1.ops, app := r.1.app }, true)
  | ContExit.raised => ({ st with ops := r.1.ops, app := r.1.app }, false)
  | ContExit.finished =>
    if p.contGen.raised then ({ st with ops := r.1.ops, app := r.1.app }, false)
    else
      let follow_up := stripWS (joinWS r.1.cparts)
      if !follow_up.isEmpty && !(actSet p.contActAt r.1.t) then
        let newOps := r.1.ops ++ [Op.event (SseEvent.continuationEv follow_up)]
        ({ st with ops := newOps, app := r.1.app }, true)
      else ({ st with ops := r.1.ops, app := r.1.app }, true)

/-- The body of the `try:` block of `_stream_reply_audio` (src/main.py lines
667–744): the reply fragment loop, the reply event for a non-empty
`final_text`, and the continuation decision — wait for user activity bounded
by the window, running `_stream_continuation` exactly on timeout.  Returns
the performed operations and whether the body completed without an uncaught
exception. -/
def turnBody (p : TurnParams) : List Op × Bool :=
  let r := replyRun p
  if !r.2 then (r.1.ops, false)
  else if p.gen.raised then (r.1.ops, false)
  else
    let st := postReplyState p
    if continuationGate p then
      if p.activityWithinWindow then (st.ops, true)
      else
        let r1 := stream_continuation p st
        (r1.1.ops, r1.2)
    else (st.ops, true)

/-- `_stream_reply_audio` (src/main.py lines 618–761) as the trace of
operations it performs on the per-call queues.  `cancel = some k` delivers
`asyncio.CancelledError` at the k-th operation of the body (a suspension
point inside it), upon which the handler re-raises (line 746–747) and the
`finally:` block still pushes the end-of-turn sentinel (line 756);
`cancel = none` (or a k past the body's end) lets the body finish on its own.
On an uncaught non-cancellation exception the `except` block first enqueues
an application-level error event (line 749), then the `finally:` pushes the
sentinel. -/
def stream_reply_audio (p : TurnParams) (cancel : Option Nat) : List Op :=
  let r := turnBody p
  match cancel with
  | some k =>
    if k < r.1.length then r.1.take k ++ [Op.push QItem.sentinel]
    else (if r.2 then r.1 else r.1 ++ [Op.event SseEvent.errorEv]) ++ [Op.push QItem.sentinel]
  | none =>
    (if r.2 then r.1 else r.1 ++ [Op.event SseEvent.errorEv]) ++ [Op.push QItem.sentinel]

/-- Failing-generator turn parameters (the generator raises immediately),
used to exhibit the error path of `_stream_reply_audio`. -/
def c1Params : TurnParams where
  userInput := "hi".data
  gen := ⟨[], true⟩
  contGen := ⟨[], false⟩
  synth := fun _ => ⟨[], false⟩
  turn := 1
  contWindow := 2
  activityWithinWindow := false
  contActAt := none

/-- Turn parameters where synthesis fails on the first fragment `"one"`
(after yielding chunk 11) but would succeed with chunk 21 on the second
fragment `"two"`. -/
def c2Params : TurnParams where
  userInput := "hi".data
  gen := ⟨["one".data, "two".data], false⟩
  contGen := ⟨[], false⟩
  synth := fun t => if t = "one".data then ⟨[11], true⟩ else ⟨[21], false⟩
  turn := 2
  contWindow := 2
  activityWithinWindow := false
  contActAt := none

/-- First-turn parameters with a silent caller: the reply produces fragment
`"hello."` (audio chunk 5) and the continuation produces `"still there?"`
(audio chunk 7). -/
def c3Params : TurnParams where
  userInput := "hi".data
  gen := ⟨["hello.".data], false⟩
  contGen := ⟨["still there?".data], false⟩
  synth := fun t => if t = "hello.".data then ⟨[5], false⟩ else ⟨[7], false⟩
  turn := 1
  contWindow := 2
  activityWithinWindow := false
  contActAt := none

/-- The same scenario as `c3Params` but on the call's second turn. -/
def c3ParamsLater : TurnParams :=
  { c3Params with turn := 2 }

/-! ### Backchannel filler (src/main.py, `_emit_backchannel`) -/

/-- The push loop of `_emit_backchannel` (src/main.py lines 651–657): the
shared `first_chunk_event` signal is checked before each individual push
(line 654) and the loop breaks the moment it is observed set.  `sig t` is
the signal's state at the t-th read the task performs; the check before the
i-th chunk's push is read `i + 1`. -/
def bcPushLoop (sig : Nat → Bool) : List Chunk → Nat → List Chunk
  | [], _ => []
  | c :: cs, t => if sig t then [] else c :: bcPushLoop sig cs (t + 1)

/-- Embeds `_emit_backchannel` (src/main.py lines 642–663) as the sequence of
filler audio chunks the task pushes onto the relay queue: after the delay
timer elapses, read 0 of the "first fragment produced" signal decides between
suppression (lines 646–647) and synthesis; during synthesis, the signal is
re-checked before every single push.  `fillerChunks` is the synthesizer's
chunk stream for `BACKCHANNEL_TEXT`. -/
def emit_backchannel (sig : Nat → Bool) (fillerChunks : List Chunk) : List Chunk :=
  if sig 0 then [] else bcPushLoop sig fillerChunks 1

/-! ### Output-file append flag (src/main.py nonlocal `append`) -/

/-- One serialized synthesis block of a turn — the `async with write_lock:`
bodies at src/main.py lines 649–659 (backchannel), 676–684 (reply fragment)
and 720–730 (continuation), serialized by `write_lock` (line 635).  `pushed`
counts the audio chunks the block actually enqueued (its `wrote_audio` is
exactly `0 < pushed`, since every site sets `wrote_audio = True` immediately
before its `queue.put`), and `raised` records whether the block's synthesis
stream raised an exception out of its `async for` (a loop truncated by a
`break` abandons the stream, so there `raised = false`). -/
structure SynthBlock where
  pushed : Nat
  raised : Bool
deriving DecidableEq

/-- The mode in which `stream_text_to_speech` opens the per-call output
file: `mode = "ab" if append else "wb"` (src/agent/speak.py line 273). -/
inductive FileMode
  | wb
  | ab
deriving DecidableEq

/-- The open mode chosen for the current value of the `append` flag. -/
def modeOf (app : Bool) : FileMode := if app then FileMode.ab else FileMode.wb

/-- The nonlocal `append` flag after one synthesis block: each site runs
`if wrote_audio: append = True` after its chunk loop, and an exception out of
the loop skips that update (src/main.py lines 658–659, 683–684, 729–730). -/
def appendAfter (app : Bool) (b : SynthBlock) : Bool :=
  if b.raised then app else app || decide (0 < b.pushed)

/-- The open modes of the successive serialized synthesis blocks of one
turn, threading the `append` flag from its initial value (`False` at
src/main.py line 632). -/
def turnModes : Bool → List SynthBlock → List FileMode
  | _, [] => []
  | app, b :: bs => modeOf app :: turnModes (appendAfter app b) bs

/-- Whether some block of the list enqueued audio and completed its stream
without raising — the exact condition under which the flag has flipped. -/
def anyCompleted (bs : List SynthBlock) : Bool :=
  bs.any (fun b => !b.raised && decide (0 < b.pushed))

/-! ### Call-session registries and turn replacement (src/main.py)

The five module-level dictionaries keyed by call sid are modelled as
association lists; queue instances and tasks are identified by allocation
numbers, so queue identity (needed by claims C6/C7) is observable.  The
cooperative asyncio semantics assumed is: a task not currently running is
parked at a suspension point; `task.cancel()` followed by `await task`
delivers `CancelledError` there, the task's `except asyncio.CancelledError:
raise` re-raises, its `finally:` runs, and only then does `await task`
return — so a cancelled-and-awaited task performs none of its remaining
pushes afterwards. -/

/-- Dictionary lookup (`d.get(sid)`). -/
def alookup {α : Type} : List (Str × α) → Str → Option α
  | [], _ => none
  | (k, v) :: m, sid => if k = sid then some v else alookup m sid

/-- Dictionary store (`d[sid] = v`). -/
def aput {α : Type} : List (Str × α) → Str → α → List (Str × α)
  | [], sid, v => [(sid, v)]
  | (k, w) :: m, sid, v => if k = sid then (k, v) :: m else (k, w) :: aput m sid v

/-- Dictionary removal (`d.pop(sid, None)`). -/
def aerase {α : Type} (m : List (Str × α)) (sid : Str) : List (Str × α) :=
  m.filter (fun kv => !decide (kv.1 = sid))

/-- The remaining execution of a call's in-flight orchestration task: the
queue instance it captured at creation and the pushes it would still perform
if never cancelled (its body remainder followed by its own finally
sentinel). -/
structure TurnTask where
  queueId : Nat
  pending : List QItem
deriving DecidableEq

/-- One entry of the global time-ordered push log: onto which queue
instance, on behalf of which turn (ghost provenance), and which item. -/
structure PushEv where
  queue : Nat
  turn : Nat
  item : QItem
deriving DecidableEq

/-- The per-process state of the multi-turn model: the module registries of
src/main.py lines 576–580 (with `_call_configs` reduced to the per-call turn
counter), the queue allocator, and the global push log. -/
structure Sys where
  callConfigs : List (Str × Nat)
  eventQueues : List (Str × List SseEvent)
  audioStreams : List (Str × Nat)
  tasks : List (Str × TurnTask)
  userActivityEvents : List (Str × Bool)
  nextQ : Nat
  log : List PushEv
deriving DecidableEq

/-- `_mark_user_activity` (src/main.py lines 598–601): set the call's
activity event when one is registered, otherwise do nothing. -/
def mark_user_activity (s : Sys) (sid : Str) : Sys :=
  match alookup s.userActivityEvents sid with
  | none => s
  | some _ => { s with userActivityEvents := aput s.userActivityEvents sid true }

/-- `_stop_audio_stream` (src/main.py lines 608–616): pop the installed
queue (if any) and push the sentinel onto it; then pop the call's task,
cancel it and await it — by the cooperative cancellation semantics above the
task abandons its remaining pushes, and its `finally:` (line 756) pushes the
sentinel onto its captured queue (the registry cleanup at lines 757–761 is a
no-op at this point because both entries were already popped here). -/
def stop_audio_stream (s : Sys) (sid : Str) : Sys :=
  let s1 :=
    match alookup s.audioStreams sid with
    | none => s
    | some q =>
      { s with
        audioStreams := aerase s.audioStreams sid,
        log := s.log ++ [⟨q, (alookup s.callConfigs sid).getD 0, QItem.sentinel⟩] }
  match alookup s1.tasks sid with
  | none => s1
  | some tk =>
    { s1 with
      tasks := aerase s1.tasks sid,
      log := s1.log ++ [⟨tk.queueId, (alookup s1.callConfigs sid).getD 0, QItem.sentinel⟩] }

/-- The `SpeechResult` branch of `twilio_voice` (src/main.py lines 427–457)
for call `sid`: mark user activity, stop the previous audio stream
(cancelling and awaiting the previous turn's task), create and install a
fresh relay queue, and install the new turn's orchestration task — whose
remaining execution `newPending` runs only after this handler completes. -/
def twilio_voice_turn (s : Sys) (sid : Str) (newPending : List QItem) : Sys :=
  let s1 := mark_user_activity s sid
  let s2 := stop_audio_stream s1 sid
  let q := s2.nextQ
  { s2 with
    audioStreams := aput s2.audioStreams sid q,
    nextQ := s2.nextQ + 1,
    tasks := aput s2.tasks sid ⟨q, newPending⟩ }

/-- The installed turn task running to completion, uninterrupted
(src/main.py lines 618–761): it increments the call's turn counter (lines
637–640), performs its pushes onto its captured queue, installs a fresh
(unset) activity event via `_prepare_for_next_user_activity` (line 704) —
which persists until `_close_stream`, there being no removal when the
continuation window expires — and its `finally:` removes the queue and task
registry entries when they are still its own (lines 757–761). -/
def run_task (s : Sys) (sid : Str) : Sys :=
  match alookup s.tasks sid with
  | none => s
  | some tk =>
    let turn := (alookup s.callConfigs sid).getD 0 + 1
    let s1 := { s with
      callConfigs := aput s.callConfigs sid turn,
      userActivityEvents := aput s.userActivityEvents sid false,
      log := s.log ++ tk.pending.map (fun it => ⟨tk.queueId, turn, it⟩) }
    let s2 :=
      if alookup s1.audioStreams sid = some tk.queueId then
        { s1 with audioStreams := aerase s1.audioStreams sid }
      else s1
    if alookup s2.tasks sid = some tk then
      { s2 with tasks := aerase s2.tasks sid }
    else s2

/-- The sid of the concrete two-turn scenario. -/
def c7Sid : Str := "ca1".data

/-- The system right after call creation (src/main.py line 404 installs the
call config with `turn = 0`; no queue or task exists yet). -/
def c7Sys0 : Sys :=
  ⟨[(c7Sid, 0)], [], [], [], [], 0, []⟩

/-- Remaining execution of the scenario's turn-1 task: one audio chunk, then
its finally sentinel. -/
def c7P1 : List QItem := [QItem.chunk (Source.reply 0) 1, QItem.sentinel]

/-- Remaining execution of the scenario's turn-2 task. -/
def c7P2 : List QItem := [QItem.chunk (Source.reply 0) 2, QItem.sentinel]

/-- A system captured mid-turn-1 of the scenario: the turn-1 task has pushed
one audio chunk already (the log entry) and still has `c7P1` to run; queue 0
is installed and the turn counter was already incremented to 1 by the
running task. -/
def c6Sys : Sys :=
  ⟨[(c7Sid, 1)], [], [(c7Sid, 0)], [(c7Sid, ⟨0, c7P1⟩)], [], 1,
    [⟨0, 1, QItem.chunk (Source.reply 0) 9⟩]⟩

/-! ### Supporting lemmas for `splitWS` / `joinWS` -/

/-- Every word produced by `splitWSAux` from a clean accumulator is non-empty
and contains no whitespace. -/
theorem splitWSAux_mem {w : Str} {l acc : Str}
    (hacc : ∀ c ∈ acc, isWS c = false) (hw : w ∈ splitWSAux l acc) :
    w ≠ [] ∧ ∀ c ∈ w, isWS c = false := by
  induction l generalizing acc with
  | nil =>
    by_cases h : acc = []
    · simp [splitWSAux, h] at hw
    · simp only [splitWSAux, if_neg h, List.mem_singleton] at hw
      subst hw
      refine ⟨by simpa using h, ?_⟩
      intro c hc
      exact hacc c (List.mem_reverse.mp hc)
  | cons c cs ih =>
    by_cases hc : isWS c
    · rw [splitWSAux, if_pos hc] at hw
      by_cases h : acc = []
      · rw [if_pos h] at hw
        exact ih (by simp) hw
      · rw [if_neg h] at hw
        rcases List.mem_cons.mp hw with h1 | h1
        · subst h1
          refine ⟨by simpa using h, ?_⟩
          intro d hd
          exact hacc d (List.mem_reverse.mp hd)
        · exact ih (by simp) h1
    · rw [splitWSAux, if_neg hc] at hw
      refine ih ?_ hw
      intro d hd
      rcases List.mem_cons.mp hd with h1 | h1
      · subst h1
        simpa using hc
      · exact hacc d h1

/-- Every word produced by `splitWS` is non-empty and contains no whitespace. -/
theorem splitWS_mem {w : Str} {l : Str} (hw : w ∈ splitWS l) :
    w ≠ [] ∧ ∀ c ∈ w, isWS c = false :=
  splitWSAux_mem (by simp) hw

/-- Scanning a clean word just extends the accumulator. -/
theorem splitWSAux_append_word {w : Str} (l acc : Str)
    (hclean : ∀ c ∈ w, isWS c = false) :
    splitWSAux (w ++ l) acc = splitWSAux l (w.reverse ++ acc) := by
  induction w generalizing acc with
  | nil => simp
  | cons c w ih =>
    have hc : isWS c = false := hclean c (List.mem_cons_self c w)
    simp only [List.cons_append]
    rw [splitWSAux, if_neg (by simp [hc])]
    rw [ih (c :: acc) (fun d hd => hclean d (List.mem_cons_of_mem c hd))]
    simp

/-- Splitting the single-space join of clean non-empty words recovers exactly
those words. -/
theorem splitWS_joinWS {ws : List Str}
    (h : ∀ w ∈ ws, w ≠ [] ∧ ∀ c ∈ w, isWS c = false) :
    splitWS (joinWS ws) = ws := by
  induction ws with
  | nil => simp [joinWS, splitWS, splitWSAux]
  | cons w ws ih =>
    rcases h w (List.mem_cons_self w ws) with ⟨hne, hclean⟩
    have hrev : w.reverse ≠ [] := by simpa using hne
    cases ws with
    | nil =>
      rw [joinWS, splitWS, show w = w ++ [] by simp, splitWSAux_append_word [] [] hclean]
      simp [splitWSAux, hrev]
    | cons x ws =>
      have hrest : ∀ v ∈ x :: ws, v ≠ [] ∧ ∀ c ∈ v, isWS c = false :=
        fun v hv => h v (List.mem_cons_of_mem w hv)
      have ihx := ih hrest
      have hsp : isWS ' ' = true := by decide
      rw [joinWS, splitWS, splitWSAux_append_word (' ' :: joinWS (x :: ws)) [] hclean]
      rw [splitWSAux, if_pos hsp]
      simp only [List.append_nil, if_neg hrev, List.reverse_reverse]
      rw [show splitWSAux (joinWS (x :: ws)) [] = splitWS (joinWS (x :: ws)) from rfl, ihx]

/-- C8: for every prompt string, `_trim_system_prompt` (applied at call
creation via `CallRequest._limit_prompt` and when seeding a turn's generator
messages) yields a prompt containing at most `SYSTEM_PROMPT_TOKEN_LIMIT`
(default 300) whitespace-separated words; a prompt whose word count is already
at or below the limit is returned unchanged, and an empty prompt maps to the
empty string. -/
theorem C8_system_prompt_trimming (p : Str) :
    (splitWS (trim_system_prompt p)).length ≤ SYSTEM_PROMPT_TOKEN_LIMIT ∧
    ((splitWS p).length ≤ SYSTEM_PROMPT_TOKEN_LIMIT → trim_system_prompt p = p) ∧
    trim_system_prompt [] = [] := by
  refine ⟨?_, ?_, by simp [trim_system_prompt]⟩
  · by_cases hp : p = []
    · subst hp
      simp [trim_system_prompt, splitWS, splitWSAux]
    · rw [trim_system_prompt, if_neg hp]
      by_cases hlen : (splitWS p).length ≤ SYSTEM_PROMPT_TOKEN_LIMIT
      · rw [if_pos hlen]
        exact hlen
      · rw [if_neg hlen]
        have hclean : ∀ w ∈ (splitWS p).take SYSTEM_PROMPT_TOKEN_LIMIT,
            w ≠ [] ∧ ∀ c ∈ w, isWS c = false :=
          fun w hw => splitWS_mem (List.mem_of_mem_take hw)
        rw [splitWS_joinWS hclean, List.length_take]
        exact min_le_left _ _
  · intro hlen
    by_cases hp : p = []
    · subst hp
      simp [trim_system_prompt]
    · rw [trim_system_prompt, if_neg hp, if_pos hlen]

/-- The source buffer loop and the spec's Fragment Buffer agree from any
buffer that does not already pass the flush test (in the source, falsy deltas
are skipped; in the spec they are appended vacuously). -/
theorem coldcallAux_eq_spec (deltas : List Str) :
    ∀ buffer, flushCond buffer = false →
      coldcallAux buffer deltas = flushFragmentsSpec buffer deltas := by
  induction deltas with
  | nil =>
    intro buffer _
    rfl
  | cons delta deltas ih =>
    intro buffer hbuf
    by_cases hd : delta = []
    · subst hd
      have h1 : coldcallAux buffer ([] :: deltas) = coldcallAux buffer deltas := by
        simp [coldcallAux]
      have h2 : flushFragmentsSpec buffer ([] :: deltas) = flushFragmentsSpec buffer deltas := by
        simp [flushFragmentsSpec, hbuf]
      rw [h1, h2]
      exact ih buffer hbuf
    · by_cases hf : flushCond (buffer ++ delta) = true
      · have h1 : coldcallAux buffer (delta :: deltas) =
            (if stripWS (buffer ++ delta) = [] then [] else [stripWS (buffer ++ delta)]) ++
              coldcallAux [] deltas := by
          simp [coldcallAux, hd, hf]
        have h2 : flushFragmentsSpec buffer (delta :: deltas) =
            (if stripWS (buffer ++ delta) = [] then [] else [stripWS (buffer ++ delta)]) ++
              flushFragmentsSpec [] deltas := by
          simp [flushFragmentsSpec, hf]
        rw [h1, h2, ih [] (by decide)]
      · have hf1 : flushCond (buffer ++ delta) = false := by simpa using hf
        have h1 : coldcallAux buffer (delta :: deltas) = coldcallAux (buffer ++ delta) deltas := by
          simp [coldcallAux, hd, hf1]
        have h2 : flushFragmentsSpec buffer (delta :: deltas) =
            flushFragmentsSpec (buffer ++ delta) deltas := by
          simp [flushFragmentsSpec, hf1]
        rw [h1, h2]
        exact ih (buffer ++ delta) hf1

/-- Every fragment emitted by the source buffer loop is non-empty. -/
theorem coldcallAux_ne_nil (deltas : List Str) :
    ∀ buffer, ∀ f ∈ coldcallAux buffer deltas, f ≠ [] := by
  induction deltas with
  | nil =>
    intro buffer f hf
    by_cases h : stripWS buffer = []
    · simp [coldcallAux, h] at hf
    · simp only [coldcallAux, if_neg h, List.mem_singleton] at hf
      subst hf
      exact h
  | cons delta deltas ih =>
    intro buffer f hf
    by_cases hd : delta = []
    · simp only [coldcallAux, if_pos hd] at hf
      exact ih buffer f hf
    · by_cases hfl : flushCond (buffer ++ delta) = true
      · simp only [coldcallAux, if_neg hd, hfl, if_true, List.mem_append] at hf
        rcases hf with hf | hf
        · by_cases h : stripWS (buffer ++ delta) = []
          · simp [h] at hf
          · simp only [if_neg h, List.mem_singleton] at hf
            subst hf
            exact h
        · exact ih [] f hf
      · simp only [coldcallAux, if_neg hd, hfl, if_false] at hf
        exact ih (buffer ++ delta) f hf

/-- C4: for every input token sequence, the fragment-buffer loop of
`stream_coldcall_reply` behaves exactly as the spec's Fragment Buffer
describes — after each append it flushes precisely when the buffer reaches the
hard maximum (80) or contains a sentence terminator with length at least the
soft minimum (60), each flush emits the trimmed buffer and resets it,
empty/whitespace-only flushes are suppressed, the end of the stream emits the
non-empty trimmed remainder — and every emitted fragment is non-empty. -/
theorem C4_fragment_buffer (deltas : List Str) :
    stream_coldcall_reply deltas = flush_fragments deltas ∧
    ∀ f ∈ stream_coldcall_reply deltas, f ≠ [] :=
  ⟨coldcallAux_eq_spec deltas [] (by decide), coldcallAux_ne_nil deltas []⟩

/-- Witness for C4 at the spec §8 example token sequence. -/
theorem C4_fragment_buffer_witness :
    stream_coldcall_reply c4Tokens = flush_fragments c4Tokens ∧
    "Hi, there. How are you?".data ≠ [] :=
  ⟨(C4_fragment_buffer c4Tokens).1,
   (C4_fragment_buffer c4Tokens).2 ("Hi, there. How are you?".data) (by decide)⟩

/-- The last element of `l ++ [a]` is `a`. -/
theorem getLast_concat_eq {α : Type _} (l : List α) (a : α) :
    (l ++ [a]).getLast? = some a := by
  induction l with
  | nil => rfl
  | cons b bs ih =>
    cases bs with
    | nil => rfl
    | cons c cs => simpa using ih

/-- Unfolding: an empty-after-strip generator chunk is skipped. -/
theorem replyLoop_cons_skip {chunk : Str} (synth : Str → SynthRun) (rest : List Str)
    (st : BodyState) (h : stripWS chunk = []) :
    replyLoop synth (chunk :: rest) st = replyLoop synth rest st := by
  simp [replyLoop, h]

/-- Unfolding: a fragment whose synthesis raises ends the loop with the
chunks yielded so far pushed and the failing fragment recorded in `parts`. -/
theorem replyLoop_cons_fail {chunk : Str} (synth : Str → SynthRun) (rest : List Str)
    (st : BodyState) (h1 : ¬stripWS chunk = []) (h2 : (synth (stripWS chunk)).raised = true) :
    replyLoop synth (chunk :: rest) st =
      ({ st with
          parts := st.parts ++ [stripWS chunk],
          ops := st.ops ++ (synth (stripWS chunk)).chunks.map
            (fun c => Op.push (QItem.chunk (Source.reply st.parts.length) c)) }, false) := by
  simp [replyLoop, h1, h2]

/-- Unfolding: a successfully synthesized fragment pushes its chunks, records
its text and updates `append`, and the loop continues. -/
theorem replyLoop_cons_ok {chunk : Str} (synth : Str → SynthRun) (rest : List Str)
    (st : BodyState) (h1 : ¬stripWS chunk = []) (h2 : (synth (stripWS chunk)).raised = false) :
    replyLoop synth (chunk :: rest) st =
      replyLoop synth rest
        { st with
          parts := st.parts ++ [stripWS chunk],
          ops := st.ops ++ (synth (stripWS chunk)).chunks.map
            (fun c => Op.push (QItem.chunk (Source.reply st.parts.length) c)),
          app := st.app || !(synth (stripWS chunk)).chunks.isEmpty } := by
  simp [replyLoop, h1, h2]

/-- When the reply loop exits with an exception, the failing fragment is the
last one recorded in `parts` and its synthesis raised. -/
theorem replyLoop_false_last (synth : Str → SynthRun) (chunks : List Str) :
    ∀ st, (replyLoop synth chunks st).2 = false →
      ∃ t, (replyLoop synth chunks st).1.parts.getLast? = some t ∧
        (synth t).raised = true := by
  induction chunks with
  | nil =>
    intro st h
    simp [replyLoop] at h
  | cons chunk rest ih =>
    intro st h
    by_cases ht : stripWS chunk = []
    · rw [replyLoop_cons_skip synth rest st ht] at h ⊢
      exact ih st h
    · by_cases hr : (synth (stripWS chunk)).raised = true
      · rw [replyLoop_cons_fail synth rest st ht hr]
        exact ⟨stripWS chunk, getLast_concat_eq _ _, hr⟩
      · have hr1 : (synth (stripWS chunk)).raised = false := by simpa using hr
        rw [replyLoop_cons_ok synth rest st ht hr1] at h ⊢
        exact ih _ h

/-- Every reply-fragment chunk pushed by the loop carries a label below the
number of fragments recorded in `parts`. -/
theorem replyLoop_labels (synth : Str → SynthRun) (chunks : List Str) :
    ∀ st, (∀ j c, Op.push (QItem.chunk (Source.reply j) c) ∈ st.ops → j < st.parts.length) →
      ∀ j c, Op.push (QItem.chunk (Source.reply j) c) ∈ (replyLoop synth chunks st).1.ops →
        j < (replyLoop synth chunks st).1.parts.length := by
  induction chunks with
  | nil =>
    intro st hst j c hm
    simp only [replyLoop] at hm ⊢
    exact hst j c hm
  | cons chunk rest ih =>
    intro st hst j c hm
    by_cases ht : stripWS chunk = []
    · rw [replyLoop_cons_skip synth rest st ht] at hm ⊢
      exact ih st hst j c hm
    · have hnext : ∀ j c, Op.push (QItem.chunk (Source.reply j) c) ∈
          st.ops ++ (synth (stripWS chunk)).chunks.map
            (fun c => Op.push (QItem.chunk (Source.reply st.parts.length) c)) →
          j < (st.parts ++ [stripWS chunk]).length := by
        intro j c hjc
        rcases List.mem_append.mp hjc with hjc | hjc
        · have := hst j c hjc
          simp only [List.length_append, List.length_cons, List.length_nil]
          omega
        · rcases List.mem_map.mp hjc with ⟨c0, _, heq⟩
          have hj : j = st.parts.length := by
            injection heq with hq
            injection hq with hs hc
            injection hs with hj
            omega
          simp only [List.length_append, List.length_cons, List.length_nil]
          omega
      by_cases hr : (synth (stripWS chunk)).raised = true
      · rw [replyLoop_cons_fail synth rest st ht hr] at hm ⊢
        exact hnext j c hm
      · have hr1 : (synth (stripWS chunk)).raised = false := by simpa using hr
        rw [replyLoop_cons_ok synth rest st ht hr1] at hm ⊢
        exact ih _ hnext j c hm

/-- The reply loop performs only reply-fragment pushes: no events and no
backchannel or continuation chunks. -/
theorem replyLoop_ops_shape (synth : Str → SynthRun) (chunks : List Str) :
    ∀ st, (∀ op ∈ st.ops, ∃ j c, op = Op.push (QItem.chunk (Source.reply j) c)) →
      ∀ op ∈ (replyLoop synth chunks st).1.ops,
        ∃ j c, op = Op.push (QItem.chunk (Source.reply j) c) := by
  induction chunks with
  | nil =>
    intro st hst op hm
    simp only [replyLoop] at hm
    exact hst op hm
  | cons chunk rest ih =>
    intro st hst op hm
    by_cases ht : stripWS chunk = []
    · rw [replyLoop_cons_skip synth rest st ht] at hm
      exact ih st hst op hm
    · have hnext : ∀ op ∈ st.ops ++ (synth (stripWS chunk)).chunks.map
          (fun c => Op.push (QItem.chunk (Source.reply st.parts.length) c)),
          ∃ j c, op = Op.push (QItem.chunk (Source.reply j) c) := by
        intro op hop
        rcases List.mem_append.mp hop with hop | hop
        · exact hst op hop
        · rcases List.mem_map.mp hop with ⟨c0, _, heq⟩
          exact ⟨st.parts.length, c0, heq.symm⟩
      by_cases hr : (synth (stripWS chunk)).raised = true
      · rw [replyLoop_cons_fail synth rest st ht hr] at hm
        exact hnext op hm
      · have hr1 : (synth (stripWS chunk)).raised = false := by simpa using hr
        rw [replyLoop_cons_ok synth rest st ht hr1] at hm
        exact ih _ hnext op hm

/-- When the reply loop raised, the turn body is exactly its trace with the
failure flag. -/
theorem turnBody_of_replyFail (p : TurnParams) (h : (replyRun p).2 = false) :
    turnBody p = ((replyRun p).1.ops, false) := by
  simp [turnBody, h]

/-- C1: on every termination path of `_stream_reply_audio` — normal
completion, uncaught exception in the body, and cancellation delivered at any
point — the end-of-turn sentinel (`None`) is the last operation pushed onto
the turn's audio relay queue, and on an uncaught non-cancellation exception
an application-level error event is additionally enqueued for observers. -/
theorem C1_sentinel_on_every_path (p : TurnParams) (cancel : Option Nat) :
    (stream_reply_audio p cancel).getLast? = some (Op.push QItem.sentinel) ∧
    (cancel = none → (turnBody p).2 = false →
      Op.event SseEvent.errorEv ∈ stream_reply_audio p cancel) := by
  constructor
  · rcases cancel with _ | k
    · rw [stream_reply_audio]
      exact getLast_concat_eq _ _
    · rw [stream_reply_audio]
      by_cases hk : k < (turnBody p).1.length
      · simp only [if_pos hk]
        exact getLast_concat_eq _ _
      · simp only [if_neg hk]
        exact getLast_concat_eq _ _
  · rintro rfl h
    simp [stream_reply_audio, h]

/-- Witness for C1 on the failing-generator parameters: the error path pushes
the error event and ends with the sentinel. -/
theorem C1_sentinel_on_every_path_witness :
    (stream_reply_audio c1Params none).getLast? = some (Op.push QItem.sentinel) ∧
    Op.event SseEvent.errorEv ∈ stream_reply_audio c1Params none :=
  ⟨(C1_sentinel_on_every_path c1Params none).1,
   (C1_sentinel_on_every_path c1Params none).2 rfl (by decide)⟩

/-- C2 counterexample: with synthesis failing on fragment `"one"` (after
chunk 11) and able to produce chunk 21 for fragment `"two"`, the turn does
NOT continue with the next fragment — chunk 21 is never pushed; instead the
turn aborts with an error event and the sentinel.  This refutes the claim
that a failed fragment is skipped and processing continues within the same
turn. -/
theorem C2_counterexample :
    stream_reply_audio c2Params none =
      [Op.push (QItem.chunk (Source.reply 0) 11), Op.event SseEvent.errorEv,
        Op.push QItem.sentinel] ∧
    Op.push (QItem.chunk (Source.reply 1) 21) ∉ stream_reply_audio c2Params none := by
  decide

/-- C2 amended: if synthesis of a fragment raises, the turn does not recover
per-fragment — the body aborts at the failing fragment (which is the last
entry of `parts`), no chunk bearing a later fragment label is ever pushed, no
reply or continuation event is emitted, an error event is enqueued for
observers, and the sentinel is still pushed last. -/
theorem C2_synthesis_failure_aborts_turn (p : TurnParams)
    (h : (replyRun p).2 = false) :
    (∃ t, (replyRun p).1.parts.getLast? = some t ∧ (p.synth t).raised = true) ∧
    (∀ j c, Op.push (QItem.chunk (Source.reply j) c) ∈ stream_reply_audio p none →
      j < (replyRun p).1.parts.length) ∧
    Op.event SseEvent.errorEv ∈ stream_reply_audio p none ∧
    (stream_reply_audio p none).getLast? = some (Op.push QItem.sentinel) ∧
    (∀ t, Op.event (SseEvent.continuationEv t) ∉ stream_reply_audio p none) ∧
    (∀ u b, Op.event (SseEvent.replyEv u b) ∉ stream_reply_audio p none) ∧
    (∀ c, Op.push (QItem.chunk Source.continuation c) ∉ stream_reply_audio p none) := by
  have hbody : turnBody p = ((replyRun p).1.ops, false) := turnBody_of_replyFail p h
  have htrace : stream_reply_audio p none =
      (replyRun p).1.ops ++ [Op.event SseEvent.errorEv] ++ [Op.push QItem.sentinel] := by
    rw [stream_reply_audio, hbody]
    simp
  have hshape := replyLoop_ops_shape p.synth p.gen.chunks ⟨[], false, []⟩ (by simp)
  refine ⟨replyLoop_false_last p.synth p.gen.chunks _ h, ?_, ?_, ?_, ?_, ?_, ?_⟩
  · intro j c hm
    rw [htrace] at hm
    rcases List.mem_append.mp hm with hm | hm
    · rcases List.mem_append.mp hm with hm | hm
      · exact replyLoop_labels p.synth p.gen.chunks _ (by simp) j c hm
      · simp at hm
    · simp at hm
  · rw [htrace]
    simp
  · rw [htrace]
    exact getLast_concat_eq _ _
  · intro t hm
    rw [htrace] at hm
    rcases List.mem_append.mp hm with hm | hm
    · rcases List.mem_append.mp hm with hm | hm
      · rcases hshape _ hm with ⟨j, c, hop⟩
        simp at hop
      · simp at hm
    · simp at hm
  · intro u b hm
    rw [htrace] at hm
    rcases List.mem_append.mp hm with hm | hm
    · rcases List.mem_append.mp hm with hm | hm
      · rcases hshape _ hm with ⟨j, c, hop⟩
        simp at hop
      · simp at hm
    · simp at hm
  · intro c hm
    rw [htrace] at hm
    rcases List.mem_append.mp hm with hm | hm
    · rcases List.mem_append.mp hm with hm | hm
      · rcases hshape _ hm with ⟨j, c0, hop⟩
        simp at hop
      · simp at hm
    · simp at hm

/-- Witness for the amended C2 on the concrete failing-synthesis turn. -/
theorem C2_synthesis_failure_aborts_turn_witness :
    Op.event SseEvent.errorEv ∈ stream_reply_audio c2Params none ∧
    (stream_reply_audio c2Params none).getLast? = some (Op.push QItem.sentinel) :=
  ⟨(C2_synthesis_failure_aborts_turn c2Params (by decide)).2.2.1,
   (C2_synthesis_failure_aborts_turn c2Params (by decide)).2.2.2.1⟩

/-- A continuation audio chunk is not a continuation event. -/
theorem contChunk_not_contEv {op : Op} (h : isContinuationChunk op = true) :
    isContinuationEv op = false := by
  rcases op with item | e
  · rfl
  · simp [isContinuationChunk] at h

/-- With a silent caller the continuation audio loop pushes every chunk. -/
theorem contAudioLoop_silent (cs : List Chunk) : ∀ t,
    contAudioLoop none cs t =
      (cs.map (fun c => Op.push (QItem.chunk Source.continuation c)),
        t + cs.length, !cs.isEmpty, true) := by
  induction cs with
  | nil =>
    intro t
    simp [contAudioLoop]
  | cons c cs ih =>
    intro t
    have harith : t + 1 + cs.length = t + (cs.length + 1) := by omega
    simp [contAudioLoop, actSet, ih (t + 1), harith]

/-- With a silent caller and no synthesis failure among the continuation's
fragment texts, the continuation text loop finishes, collects exactly the
nonempty stripped texts, and appends only continuation chunk pushes to the
trace. -/
theorem contTextLoop_silent (synth : Str → SynthRun) (chunks : List Str) :
    ∀ st, (∀ t ∈ fragTexts chunks, (synth t).raised = false) →
      (contTextLoop none synth chunks st).2 = ContExit.finished ∧
      (contTextLoop none synth chunks st).1.cparts = st.cparts ++ fragTexts chunks ∧
      ∃ l, (contTextLoop none synth chunks st).1.ops = st.ops ++ l ∧
        ∀ op ∈ l, isContinuationChunk op = true := by
  induction chunks with
  | nil =>
    intro st h
    exact ⟨rfl, by simp [contTextLoop, fragTexts], ⟨[], by simp [contTextLoop], by simp⟩⟩
  | cons chunk rest ih =>
    intro st h
    by_cases ht : stripWS chunk = []
    · have hfr : fragTexts (chunk :: rest) = fragTexts rest := by
        simp [fragTexts, List.filter_cons, ht]
      have hstep : contTextLoop none synth (chunk :: rest) st =
          contTextLoop none synth rest { st with t := st.t + 1 } := by
        simp [contTextLoop, actSet, ht]
      rw [hfr] at h
      obtain ⟨h1, h2, l, h3, h4⟩ := ih { st with t := st.t + 1 } h
      rw [hstep, hfr]
      exact ⟨h1, by simpa using h2, ⟨l, by simpa using h3, h4⟩⟩
    · have hne : (stripWS chunk).isEmpty = false := by
        rcases hx : stripWS chunk with _ | ⟨a, as⟩
        · exact absurd hx ht
        · rfl
      have hfr : fragTexts (chunk :: rest) = stripWS chunk :: fragTexts rest := by
        simp [fragTexts, List.filter_cons, hne]
      have hsyn : (synth (stripWS chunk)).raised = false := by
        apply h
        rw [hfr]
        exact List.mem_cons_self _ _
      have hstep : contTextLoop none synth (chunk :: rest) st =
          contTextLoop none synth rest
            { st with
              ops := st.ops ++ (synth (stripWS chunk)).chunks.map
                (fun c => Op.push (QItem.chunk Source.continuation c)),
              t := st.t + 1 + (synth (stripWS chunk)).chunks.length,
              app := st.app || !(synth (stripWS chunk)).chunks.isEmpty,
              cparts := st.cparts ++ [stripWS chunk] } := by
        simp [contTextLoop, actSet, ht, contAudioLoop_silent, hsyn]
      have hrest : ∀ t ∈ fragTexts rest, (synth t).raised = false := by
        intro t htm
        apply h
        rw [hfr]
        exact List.mem_cons_of_mem _ htm
      obtain ⟨h1, h2, l, h3, h4⟩ := ih _ hrest
      rw [hstep, hfr]
      refine ⟨h1, ?_, ?_⟩
      · rw [h2]
        simp
      · refine ⟨(synth (stripWS chunk)).chunks.map
          (fun c => Op.push (QItem.chunk Source.continuation c)) ++ l, ?_, ?_⟩
        · rw [h3]
          simp
        · intro op hop
          rcases List.mem_append.mp hop with hop | hop
          · rcases List.mem_map.mp hop with ⟨c0, _, rfl⟩
            rfl
          · exact h4 op hop

/-- With a silent caller, an error-free continuation generator and
synthesizer, and a non-empty follow-up text, `_stream_continuation` pushes
its audio chunks and exactly one continuation event. -/
theorem stream_continuation_silent (p : TurnParams) (st : BodyState)
    (hAct : p.contActAt = none) (hGen : p.contGen.raised = false)
    (hSynth : ∀ t ∈ fragTexts p.contGen.chunks, (p.synth t).raised = false)
    (hFU : stripWS (joinWS (fragTexts p.contGen.chunks)) ≠ []) :
    ∃ l, (stream_continuation p st).1.ops =
        st.ops ++ l ++ [Op.event (SseEvent.continuationEv
          (stripWS (joinWS (fragTexts p.contGen.chunks))))] ∧
      (∀ op ∈ l, isContinuationChunk op = true) ∧
      (stream_continuation p st).2 = true := by
  obtain ⟨h1, h2, l, h3, h4⟩ :=
    contTextLoop_silent p.synth p.contGen.chunks ⟨st.ops, 0, st.app, []⟩ hSynth
  have hcp : (contTextLoop none p.synth p.contGen.chunks ⟨st.ops, 0, st.app, []⟩).1.cparts =
      fragTexts p.contGen.chunks := by
    simpa using h2
  have hops : (contTextLoop none p.synth p.contGen.chunks ⟨st.ops, 0, st.app, []⟩).1.ops =
      st.ops ++ l := by
    simpa using h3
  have hEmp : (stripWS (joinWS (fragTexts p.contGen.chunks))).isEmpty = false := by
    rcases hx : stripWS (joinWS (fragTexts p.contGen.chunks)) with _ | ⟨a, as⟩
    · exact absurd hx hFU
    · rfl
  refine ⟨l, ?_, h4, ?_⟩
  · simp only [stream_continuation, hAct, h1, hGen, hcp, hops, hEmp, Bool.not_false,
      Bool.false_eq_true, if_false, Bool.and_true, actSet, Bool.true_and]
    simp
  · simp only [stream_continuation, hAct, h1, hGen, hcp, hops, hEmp, Bool.not_false,
      Bool.false_eq_true, if_false, Bool.and_true, actSet, Bool.true_and]
    simp

/-- Unfolding of `turnBody` once the reply loop and the generator succeeded. -/
theorem turnBody_preGate (p : TurnParams) (h1 : (replyRun p).2 = true)
    (h2 : p.gen.raised = false) :
    turnBody p =
      (if continuationGate p then
        (if p.activityWithinWindow then ((postReplyState p).ops, true)
         else ((stream_continuation p (postReplyState p)).1.ops,
               (stream_continuation p (postReplyState p)).2))
       else ((postReplyState p).ops, true)) := by
  simp [turnBody, h1, h2]

/-- The operations recorded up to the continuation decision contain no
continuation event and no continuation chunk. -/
theorem postReplyState_ops_no_continuation (p : TurnParams) :
    ∀ op ∈ (postReplyState p).ops,
      isContinuationEv op = false ∧ isContinuationChunk op = false := by
  have hshape : ∀ op ∈ (replyRun p).1.ops,
      ∃ j c, op = Op.push (QItem.chunk (Source.reply j) c) :=
    replyLoop_ops_shape p.synth p.gen.chunks ⟨[], false, []⟩ (by simp)
  intro op hop
  rw [postReplyState] at hop
  by_cases he : (finalTextOf p).isEmpty
  · rw [if_pos he] at hop
    rcases hshape op hop with ⟨j, c, rfl⟩
    exact ⟨rfl, rfl⟩
  · rw [if_neg he] at hop
    simp only [List.mem_append, List.mem_singleton] at hop
    rcases hop with hop | rfl
    · rcases hshape op hop with ⟨j, c, rfl⟩
      exact ⟨rfl, rfl⟩
    · exact ⟨rfl, rfl⟩

/-- When the continuation gate is closed, or user activity arrives within the
window, the turn body performs no continuation operation at all. -/
theorem turnBody_no_continuation_ops (p : TurnParams)
    (h : continuationGate p = false ∨ p.activityWithinWindow = true) :
    ∀ op ∈ (turnBody p).1,
      isContinuationEv op = false ∧ isContinuationChunk op = false := by
  have hshape : ∀ op ∈ (replyRun p).1.ops,
      ∃ j c, op = Op.push (QItem.chunk (Source.reply j) c) :=
    replyLoop_ops_shape p.synth p.gen.chunks ⟨[], false, []⟩ (by simp)
  intro op hop
  by_cases h1 : (replyRun p).2 = true
  · by_cases h2 : p.gen.raised = true
    · have heq : turnBody p = ((replyRun p).1.ops, false) := by
        simp [turnBody, h1, h2]
      rw [heq] at hop
      rcases hshape op hop with ⟨j, c, rfl⟩
      exact ⟨rfl, rfl⟩
    · have h2f : p.gen.raised = false := by simpa using h2
      rw [turnBody_preGate p h1 h2f] at hop
      rcases h with hg | ha
      · rw [hg] at hop
        simp only [Bool.false_eq_true, if_false] at hop
        exact postReplyState_ops_no_continuation p op hop
      · by_cases hg : continuationGate p = true
        · rw [hg, ha] at hop
          simp only [if_true] at hop
          exact postReplyState_ops_no_continuation p op hop
        · have hgf : continuationGate p = false := by simpa using hg
          rw [hgf] at hop
          simp only [Bool.false_eq_true, if_false] at hop
          exact postReplyState_ops_no_continuation p op hop
  · have h1f : (replyRun p).2 = false := by simpa using h1
    rw [turnBody_of_replyFail p h1f] at hop
    rcases hshape op hop with ⟨j, c, rfl⟩
    exact ⟨rfl, rfl⟩

/-- The full turn trace contains no operation satisfying `q` when the body
performs none and `q` rejects the error event and the sentinel. -/
theorem stream_reply_audio_countP_zero (p : TurnParams) (cancel : Option Nat)
    (q : Op → Bool) (hbody : ∀ op ∈ (turnBody p).1, q op = false)
    (herr : q (Op.event SseEvent.errorEv) = false)
    (hsent : q (Op.push QItem.sentinel) = false) :
    (stream_reply_audio p cancel).countP q = 0 := by
  apply List.countP_eq_zero.mpr
  intro op hop
  have hfull : ∀ op ∈ ((if (turnBody p).2 then (turnBody p).1
      else (turnBody p).1 ++ [Op.event SseEvent.errorEv]) ++ [Op.push QItem.sentinel]),
      ¬q op = true := by
    intro op hop
    rcases List.mem_append.mp hop with hop | hop
    · by_cases hok : (turnBody p).2 = true
      · rw [if_pos hok] at hop
        simp [hbody op hop]
      · rw [if_neg hok] at hop
        rcases List.mem_append.mp hop with hop | hop
        · simp [hbody op hop]
        · simp only [List.mem_singleton] at hop
          subst hop
          simp [herr]
    · simp only [List.mem_singleton] at hop
      subst hop
      simp [hsent]
  rcases cancel with _ | k
  · rw [stream_reply_audio] at hop
    exact hfull op hop
  · rw [stream_reply_audio] at hop
    by_cases hk : k < (turnBody p).1.length
    · simp only [if_pos hk] at hop
      rcases List.mem_append.mp hop with hop | hop
      · have := hbody op (List.take_subset k (turnBody p).1 hop)
        simp [this]
      · simp only [List.mem_singleton] at hop
        subst hop
        simp [hsent]
    · simp only [if_neg hk] at hop
      exact hfull op hop

/-- C3: the continuation-wait is entered exactly under the gate of
src/main.py line 740 — first turn, non-empty `final_text`, positive window.
Whenever the gate is closed (in particular on every turn after the first) or
the caller speaks within the window, zero follow-up utterances are
synthesized or pushed; on the first turn, a timeout of the window with a
silent caller and error-free collaborators produces exactly one follow-up. -/
theorem C3_continuation_first_turn_only (p : TurnParams) (cancel : Option Nat) :
    ((continuationGate p = false ∨ p.activityWithinWindow = true) →
      (stream_reply_audio p cancel).countP isContinuationEv = 0 ∧
      (stream_reply_audio p cancel).countP isContinuationChunk = 0) ∧
    (p.turn ≠ 1 →
      (stream_reply_audio p cancel).countP isContinuationEv = 0 ∧
      (stream_reply_audio p cancel).countP isContinuationChunk = 0) ∧
    ((replyRun p).2 = true → p.gen.raised = false → continuationGate p = true →
      p.activityWithinWindow = false → p.contActAt = none → p.contGen.raised = false →
      (∀ t ∈ fragTexts p.contGen.chunks, (p.synth t).raised = false) →
      stripWS (joinWS (fragTexts p.contGen.chunks)) ≠ [] →
      (stream_reply_audio p none).countP isContinuationEv = 1) := by
  have hzero : (continuationGate p = false ∨ p.activityWithinWindow = true) →
      (stream_reply_audio p cancel).countP isContinuationEv = 0 ∧
      (stream_reply_audio p cancel).countP isContinuationChunk = 0 := by
    intro h
    constructor
    · exact stream_reply_audio_countP_zero p cancel isContinuationEv
        (fun op hop => (turnBody_no_continuation_ops p h op hop).1) rfl rfl
    · exact stream_reply_audio_countP_zero p cancel isContinuationChunk
        (fun op hop => (turnBody_no_continuation_ops p h op hop).2) rfl rfl
  refine ⟨hzero, ?_, ?_⟩
  · intro hturn
    apply hzero
    left
    have : is_first_turn p = false := by
      simp only [is_first_turn]
      exact beq_eq_false_iff_ne.mpr hturn
    simp [continuationGate, this]
  · intro h1 h2 h3 h4 h5 h6 h7 h8
    obtain ⟨l, hops, hl, hok⟩ := stream_continuation_silent p (postReplyState p) h5 h6 h7 h8
    have hbody : turnBody p =
        ((stream_continuation p (postReplyState p)).1.ops,
          (stream_continuation p (postReplyState p)).2) := by
      rw [turnBody_preGate p h1 h2, h3, h4]
      simp
    have htrace : stream_reply_audio p none =
        (stream_continuation p (postReplyState p)).1.ops ++ [Op.push QItem.sentinel] := by
      rw [stream_reply_audio, hbody]
      simp [hok]
    rw [htrace, hops]
    rw [List.countP_append, List.countP_append, List.countP_append]
    have hpost : (postReplyState p).ops.countP isContinuationEv = 0 :=
      List.countP_eq_zero.mpr
        (fun op hop => by simp [(postReplyState_ops_no_continuation p op hop).1])
    have hlz : l.countP isContinuationEv = 0 :=
      List.countP_eq_zero.mpr
        (fun op hop => by simp [contChunk_not_contEv (hl op hop)])
    rw [hpost, hlz]
    rfl

/-- Witness for C3: on the concrete first-turn silent-caller scenario exactly
one follow-up event is produced, and the same scenario on turn 2 produces
none. -/
theorem C3_continuation_first_turn_only_witness :
    (stream_reply_audio c3Params none).countP isContinuationEv = 1 ∧
    (stream_reply_audio c3ParamsLater none).countP isContinuationEv = 0 :=
  ⟨(C3_continuation_first_turn_only c3Params none).2.2 (by decide) rfl (by decide) rfl rfl
      rfl (by decide) (by decide),
   ((C3_continuation_first_turn_only c3ParamsLater none).2.1 (by decide)).1⟩

/-- Witness for C8 at the concrete prompts `"hi there"` and `""`. -/
theorem C8_system_prompt_trimming_witness :
    ((splitWS (trim_system_prompt ['h', 'i', ' ', 't', 'o'])).length ≤
        SYSTEM_PROMPT_TOKEN_LIMIT ∧
      trim_system_prompt ['h', 'i', ' ', 't', 'o'] = ['h', 'i', ' ', 't', 'o']) ∧
    trim_system_prompt [] = [] :=
  ⟨⟨(C8_system_prompt_trimming ['h', 'i', ' ', 't', 'o']).1,
    (C8_system_prompt_trimming ['h', 'i', ' ', 't', 'o']).2.1 (by decide)⟩,
   (C8_system_prompt_trimming []).2.2⟩

/-- Every chunk the backchannel loop pushes passed the signal check
immediately preceding its push. -/
theorem bcPushLoop_checked (sig : Nat → Bool) (cs : List Chunk) :
    ∀ t i, i < (bcPushLoop sig cs t).length → sig (t + i) = false := by
  induction cs with
  | nil =>
    intro t i hi
    simp [bcPushLoop] at hi
  | cons c cs ih =>
    intro t i hi
    by_cases hs : sig t = true
    · rw [bcPushLoop, if_pos hs] at hi
      simp at hi
    · have hs1 : sig t = false := by simpa using hs
      rw [bcPushLoop, if_neg hs] at hi
      cases i with
      | zero => simpa using hs1
      | succ i =>
        simp only [List.length_cons, Nat.succ_lt_succ_iff] at hi
        have := ih (t + 1) i hi
        have harith : t + 1 + i = t + (i + 1) := by omega
        rwa [harith] at this

/-- The backchannel loop pushes a prefix of the synthesizer's chunk stream
(truncation never reorders or skips). -/
theorem bcPushLoop_take (sig : Nat → Bool) (cs : List Chunk) :
    ∀ t, ∃ n, bcPushLoop sig cs t = cs.take n := by
  induction cs with
  | nil =>
    intro t
    exact ⟨0, by simp [bcPushLoop]⟩
  | cons c cs ih =>
    intro t
    by_cases hs : sig t = true
    · exact ⟨0, by simp [bcPushLoop, hs]⟩
    · obtain ⟨n, hn⟩ := ih (t + 1)
      refine ⟨n + 1, ?_⟩
      rw [bcPushLoop, if_neg hs, hn]
      rfl

/-- C5: if the "first fragment produced" signal is already set when the
backchannel delay elapses (read 0), zero filler chunks are pushed for the
turn; in general the signal is checked before each individual push, so every
pushed chunk saw the signal unset at the read immediately before it — no
filler chunk is ever pushed after the signal has been set — and the pushed
chunks form a prefix of the filler synthesis stream. -/
theorem C5_backchannel_suppression (sig : Nat → Bool) (fillerChunks : List Chunk) :
    (sig 0 = true → emit_backchannel sig fillerChunks = []) ∧
    (∀ i, i < (emit_backchannel sig fillerChunks).length → sig (i + 1) = false) ∧
    (∃ n, emit_backchannel sig fillerChunks = fillerChunks.take n) := by
  refine ⟨?_, ?_, ?_⟩
  · intro h
    simp [emit_backchannel, h]
  · intro i hi
    by_cases h0 : sig 0 = true
    · rw [emit_backchannel, if_pos h0] at hi
      simp at hi
    · rw [emit_backchannel, if_neg h0] at hi
      have := bcPushLoop_checked sig fillerChunks 1 i hi
      have harith : 1 + i = i + 1 := by omega
      rwa [harith] at this
  · by_cases h0 : sig 0 = true
    · exact ⟨0, by simp [emit_backchannel, h0]⟩
    · obtain ⟨n, hn⟩ := bcPushLoop_take sig fillerChunks 1
      exact ⟨n, by rw [emit_backchannel, if_neg h0, hn]⟩

/-- Witness for C5: with a signal set from the start no filler is pushed;
with a signal that becomes set at read 2, the single pushed chunk saw the
signal unset and what was pushed is a prefix of the filler stream. -/
theorem C5_backchannel_suppression_witness :
    emit_backchannel (fun _ => true) [5, 6] = [] ∧
    (fun t => decide (2 ≤ t)) 1 = false ∧
    (∃ n, emit_backchannel (fun t => decide (2 ≤ t)) [5, 6, 7] = [5, 6, 7].take n) :=
  ⟨(C5_backchannel_suppression (fun _ => true) [5, 6]).1 rfl,
   (C5_backchannel_suppression (fun t => decide (2 ≤ t)) [5, 6, 7]).2.1 0 (by decide),
   (C5_backchannel_suppression (fun t => decide (2 ≤ t)) [5, 6, 7]).2.2⟩

/-- C9 counterexample: a backchannel synthesis block that enqueues one chunk
and then raises (the exception is caught at src/main.py line 663) leaves the
`append` flag `False`, so the NEXT synthesis block opens the output file in
overwrite mode — refuting the claim that every synthesis after the first
audio-producing one opens in append mode. -/
theorem C9_counterexample :
    0 < (SynthBlock.mk 1 true).pushed ∧
    turnModes false [SynthBlock.mk 1 true, SynthBlock.mk 1 false] =
      [FileMode.wb, FileMode.wb] ∧
    turnModes false [SynthBlock.mk 1 true, SynthBlock.mk 1 false] ≠
      [FileMode.wb, FileMode.ab] := by
  decide

/-- The i-th open mode is append exactly when the flag was flipped by an
earlier block, over an arbitrary initial flag value. -/
theorem turnModes_get (bs : List SynthBlock) :
    ∀ (app : Bool) (i : Nat), i < bs.length →
      (turnModes app bs)[i]? = some (modeOf (app || anyCompleted (bs.take i))) := by
  induction bs with
  | nil =>
    intro app i hi
    simp at hi
  | cons b bs ih =>
    intro app i hi
    cases i with
    | zero =>
      simp [turnModes, anyCompleted]
    | succ i =>
      simp only [List.length_cons, Nat.succ_lt_succ_iff] at hi
      have hrec := ih (appendAfter app b) i hi
      have hbool : (appendAfter app b || anyCompleted (bs.take i)) =
          (app || anyCompleted ((b :: bs).take (i + 1))) := by
        cases hb : b.raised <;>
          simp [appendAfter, anyCompleted, hb, Bool.or_assoc]
      rw [turnModes]
      simpa [hbool] using hrec

/-- C9 amended: within one turn the `append` flag starts `False` and becomes
`True` exactly once a synthesis block has both enqueued at least one audio
chunk and completed its stream without raising; hence the i-th synthesis of
the turn opens the per-call output file in append mode iff some earlier
block of the turn enqueued audio and completed (in overwrite mode
otherwise), and a block that enqueued nothing — e.g. a backchannel truncated
before its first push — never changes the flag. -/
theorem C9_append_flag_discipline (bs : List SynthBlock) (i : Nat)
    (hi : i < bs.length) :
    (turnModes false bs)[i]? = some (modeOf (anyCompleted (bs.take i))) ∧
    (anyCompleted (bs.take i) = false → (turnModes false bs)[i]? = some FileMode.wb) ∧
    (anyCompleted (bs.take i) = true → (turnModes false bs)[i]? = some FileMode.ab) ∧
    (∀ app b, b.pushed = 0 → appendAfter app b = app) := by
  have hget := turnModes_get bs false i hi
  simp only [Bool.false_or] at hget
  refine ⟨hget, ?_, ?_, ?_⟩
  · intro h
    rw [hget, h]
    rfl
  · intro h
    rw [hget, h]
    rfl
  · intro app b hb
    cases hr : b.raised <;> simp [appendAfter, hr, hb]

/-- Witness for the amended C9: after a truncated-empty backchannel block and
a completed audio-producing block, the third synthesis opens in append mode,
while the second still opened in overwrite mode. -/
theorem C9_append_flag_discipline_witness :
    (turnModes false [SynthBlock.mk 0 false, SynthBlock.mk 2 false, SynthBlock.mk 1 false])[2]? =
      some FileMode.ab ∧
    (turnModes false [SynthBlock.mk 0 false, SynthBlock.mk 2 false, SynthBlock.mk 1 false])[1]? =
      some FileMode.wb :=
  ⟨(C9_append_flag_discipline
      [SynthBlock.mk 0 false, SynthBlock.mk 2 false, SynthBlock.mk 1 false] 2
      (by decide)).2.2.1 (by decide),
   (C9_append_flag_discipline
      [SynthBlock.mk 0 false, SynthBlock.mk 2 false, SynthBlock.mk 1 false] 1
      (by decide)).2.1 (by decide)⟩

/-- Lookup after a store at the same key. -/
theorem alookup_aput_self {α : Type} (m : List (Str × α)) (k : Str) (v : α) :
    alookup (aput m k v) k = some v := by
  induction m with
  | nil => simp [aput, alookup]
  | cons kv m ih =>
    obtain ⟨k0, w⟩ := kv
    by_cases h : k0 = k
    · simp [aput, alookup, h]
    · simp [aput, alookup, h, ih]

/-- Lookup after a removal at the same key. -/
theorem alookup_aerase_self {α : Type} (m : List (Str × α)) (k : Str) :
    alookup (aerase m k) k = none := by
  induction m with
  | nil => rfl
  | cons kv m ih =>
    obtain ⟨k0, w⟩ := kv
    by_cases h : k0 = k
    · simpa [aerase, List.filter_cons, h] using ih
    · simpa [aerase, List.filter_cons, h, alookup] using ih

/-- Frame of `mark_user_activity`: only the activity-event registry can
change. -/
theorem mark_user_activity_frame (s : Sys) (sid : Str) :
    (mark_user_activity s sid).callConfigs = s.callConfigs ∧
    (mark_user_activity s sid).eventQueues = s.eventQueues ∧
    (mark_user_activity s sid).audioStreams = s.audioStreams ∧
    (mark_user_activity s sid).tasks = s.tasks ∧
    (mark_user_activity s sid).nextQ = s.nextQ ∧
    (mark_user_activity s sid).log = s.log := by
  cases h : alookup s.userActivityEvents sid <;>
    simp [mark_user_activity, h]

/-- What `_stop_audio_stream` does: it leaves the call config and the queue
allocator alone, leaves neither a queue nor a task installed for the call,
and only appends sentinels — labelled with the call's current turn counter —
to the push log. -/
theorem stop_audio_stream_spec (s : Sys) (sid : Str) :
    (stop_audio_stream s sid).callConfigs = s.callConfigs ∧
    (stop_audio_stream s sid).nextQ = s.nextQ ∧
    alookup (stop_audio_stream s sid).audioStreams sid = none ∧
    alookup (stop_audio_stream s sid).tasks sid = none ∧
    ∃ ext, (stop_audio_stream s sid).log = s.log ++ ext ∧
      ∀ e ∈ ext, e.item = QItem.sentinel ∧
        e.turn = (alookup s.callConfigs sid).getD 0 := by
  cases h1 : alookup s.audioStreams sid with
  | none =>
    cases h2 : alookup s.tasks sid with
    | none =>
      refine ⟨?_, ?_, ?_, ?_, ⟨[], ?_, ?_⟩⟩ <;>
        simp [stop_audio_stream, h1, h2]
    | some tk =>
      refine ⟨?_, ?_, ?_, ?_,
        ⟨[⟨tk.queueId, (alookup s.callConfigs sid).getD 0, QItem.sentinel⟩], ?_, ?_⟩⟩ <;>
        simp [stop_audio_stream, h1, h2, alookup_aerase_self]
  | some q =>
    cases h2 : alookup s.tasks sid with
    | none =>
      refine ⟨?_, ?_, ?_, ?_,
        ⟨[⟨q, (alookup s.callConfigs sid).getD 0, QItem.sentinel⟩], ?_, ?_⟩⟩ <;>
        simp [stop_audio_stream, h1, h2, alookup_aerase_self]
    | some tk =>
      refine ⟨?_, ?_, ?_, ?_,
        ⟨[⟨q, (alookup s.callConfigs sid).getD 0, QItem.sentinel⟩,
          ⟨tk.queueId, (alookup s.callConfigs sid).getD 0, QItem.sentinel⟩], ?_, ?_⟩⟩ <;>
        simp [stop_audio_stream, h1, h2, alookup_aerase_self]

/-- What the handler's turn-replacement does: the call config is untouched,
the allocator advances by one, a fresh queue (number `s.nextQ`) and the new
task are installed, and only cancellation sentinels labelled with the
current turn counter were appended to the log. -/
theorem twilio_voice_turn_spec (s : Sys) (sid : Str) (p : List QItem) :
    (twilio_voice_turn s sid p).callConfigs = s.callConfigs ∧
    (twilio_voice_turn s sid p).nextQ = s.nextQ + 1 ∧
    alookup (twilio_voice_turn s sid p).audioStreams sid = some s.nextQ ∧
    alookup (twilio_voice_turn s sid p).tasks sid = some ⟨s.nextQ, p⟩ ∧
    ∃ ext, (twilio_voice_turn s sid p).log = s.log ++ ext ∧
      ∀ e ∈ ext, e.item = QItem.sentinel ∧
        e.turn = (alookup s.callConfigs sid).getD 0 := by
  obtain ⟨m1, m2, m3, m4, m5, m6⟩ := mark_user_activity_frame s sid
  obtain ⟨s1, s2, s3, s4, ext, s5, s6⟩ :=
    stop_audio_stream_spec (mark_user_activity s sid) sid
  have hc : (stop_audio_stream (mark_user_activity s sid) sid).callConfigs =
      s.callConfigs := by rw [s1, m1]
  have hn : (stop_audio_stream (mark_user_activity s sid) sid).nextQ = s.nextQ := by
    rw [s2, m5]
  refine ⟨?_, ?_, ?_, ?_, ⟨ext, ?_, ?_⟩⟩
  · simp only [twilio_voice_turn]
    exact hc
  · simp only [twilio_voice_turn]
    rw [hn]
  · simp only [twilio_voice_turn]
    rw [alookup_aput_self, hn]
  · simp only [twilio_voice_turn]
    rw [alookup_aput_self, hn]
  · simp only [twilio_voice_turn]
    rw [s5, m6]
  · intro e he
    have := s6 e he
    rwa [m1] at this

/-- What an uninterrupted run of the installed task does: it appends exactly
its pending pushes, labelled with the incremented turn counter and aimed at
its captured queue, increments the call's turn counter, and removes its own
queue and task registry entries. -/
theorem run_task_spec (s : Sys) (sid : Str) (tk : TurnTask)
    (htk : alookup s.tasks sid = some tk)
    (hq : alookup s.audioStreams sid = some tk.queueId) :
    (run_task s sid).log = s.log ++ tk.pending.map
      (fun it => ⟨tk.queueId, (alookup s.callConfigs sid).getD 0 + 1, it⟩) ∧
    alookup (run_task s sid).audioStreams sid = none ∧
    alookup (run_task s sid).tasks sid = none ∧
    alookup (run_task s sid).callConfigs sid =
      some ((alookup s.callConfigs sid).getD 0 + 1) := by
  refine ⟨?_, ?_, ?_, ?_⟩ <;>
    simp [run_task, htk, hq, alookup_aput_self, alookup_aerase_self]

/-- C10 counterexample: the claim's scope premise — that no activity event
is registered for any caller utterance arriving outside a continuation-wait
window — is false of the source.  After the call's first completed turn,
`_prepare_for_next_user_activity` (src/main.py line 704) has installed an
event, and nothing removes it when the continuation window expires (only
`_close_stream` at call teardown does), so a later utterance finds a
registered event and `_mark_user_activity` sets it: the call is then not a
no-op — the event registry changes. -/
theorem C10_counterexample :
    alookup (run_task (twilio_voice_turn c7Sys0 c7Sid c7P1) c7Sid).userActivityEvents
      c7Sid = some false ∧
    mark_user_activity (run_task (twilio_voice_turn c7Sys0 c7Sid c7P1) c7Sid) c7Sid ≠
      run_task (twilio_voice_turn c7Sys0 c7Sid c7P1) c7Sid ∧
    alookup (mark_user_activity (run_task (twilio_voice_turn c7Sys0 c7Sid c7P1) c7Sid)
      c7Sid).userActivityEvents c7Sid = some true := by
  decide

/-- C10 amended: `_mark_user_activity` for a call id with no registered
activity event is a silent no-op — total, creating no event, leaving every
module-level registry unchanged.  But that situation is NOT every utterance
outside a continuation-wait window: when an event is registered it is set to
`True` (only the event registry changes), and every uninterrupted completed
turn registers a fresh unset event via `_prepare_for_next_user_activity`
(src/main.py line 704), which persists beyond the window until
`_close_stream`. -/
theorem C10_mark_user_activity_cases (s : Sys) (sid : Str) :
    (alookup s.userActivityEvents sid = none →
      mark_user_activity s sid = s) ∧
    (∀ b, alookup s.userActivityEvents sid = some b →
      alookup (mark_user_activity s sid).userActivityEvents sid = some true ∧
      (mark_user_activity s sid).callConfigs = s.callConfigs ∧
      (mark_user_activity s sid).audioStreams = s.audioStreams ∧
      (mark_user_activity s sid).eventQueues = s.eventQueues ∧
      (mark_user_activity s sid).tasks = s.tasks ∧
      (mark_user_activity s sid).log = s.log) ∧
    (∀ tk, alookup s.tasks sid = some tk →
      alookup s.audioStreams sid = some tk.queueId →
      alookup (run_task s sid).userActivityEvents sid = some false) := by
  refine ⟨?_, ?_, ?_⟩
  · intro h
    rw [mark_user_activity, h]
  · intro b hb
    rw [mark_user_activity, hb]
    exact ⟨alookup_aput_self _ _ _, rfl, rfl, rfl, rfl, rfl⟩
  · intro tk htk hq
    simp [run_task, htk, hq, alookup_aput_self]

/-- Witness for the amended C10: before the first turn the call has no event
and the call is a no-op; running turn 1 to completion registers an unset
event; marking activity afterwards sets it while the other registries stay
put. -/
theorem C10_mark_user_activity_cases_witness :
    mark_user_activity c7Sys0 c7Sid = c7Sys0 ∧
    alookup (run_task (twilio_voice_turn c7Sys0 c7Sid c7P1) c7Sid).userActivityEvents
      c7Sid = some false ∧
    alookup (mark_user_activity (run_task (twilio_voice_turn c7Sys0 c7Sid c7P1) c7Sid)
      c7Sid).userActivityEvents c7Sid = some true :=
  ⟨(C10_mark_user_activity_cases c7Sys0 c7Sid).1 (by decide),
   (C10_mark_user_activity_cases (twilio_voice_turn c7Sys0 c7Sid c7P1) c7Sid).2.2
     ⟨c7Sys0.nextQ, c7P1⟩ (by decide) (by decide),
   ((C10_mark_user_activity_cases (run_task (twilio_voice_turn c7Sys0 c7Sid c7P1) c7Sid)
     c7Sid).2.1 false (by decide)).1⟩

/-- C6: starting a new turn cancels and awaits the previous turn's task
before the new turn's task is installed, so in the resulting push log every
operation of the new turn (labelled `n + 1`) comes after every operation of
earlier turns (labelled at most `n`): the log splits into a part with no
new-turn pushes followed by a part consisting solely of new-turn pushes — no
superseded turn ever resumes pushing audio. -/
theorem C6_no_turn_interleaving (s : Sys) (sid : Str) (p2 : List QItem) (n : Nat)
    (hcfg : alookup s.callConfigs sid = some n)
    (hlog : ∀ e ∈ s.log, e.turn ≤ n) :
    ∃ a b, (run_task (twilio_voice_turn s sid p2) sid).log = a ++ b ∧
      (∀ e ∈ a, e.turn ≤ n) ∧
      (∀ e ∈ b, e.turn = n + 1 ∧ e.queue = s.nextQ) := by
  obtain ⟨tc, tn, ta, tt, ext, tl, hext⟩ := twilio_voice_turn_spec s sid p2
  have hq : alookup (twilio_voice_turn s sid p2).audioStreams sid =
      some (TurnTask.mk s.nextQ p2).queueId := ta
  obtain ⟨rl, _, _, _⟩ := run_task_spec (twilio_voice_turn s sid p2) sid ⟨s.nextQ, p2⟩ tt hq
  have hcfg2 : (alookup (twilio_voice_turn s sid p2).callConfigs sid).getD 0 = n := by
    rw [tc, hcfg]
    rfl
  refine ⟨s.log ++ ext,
    p2.map (fun it => ⟨s.nextQ, n + 1, it⟩), ?_, ?_, ?_⟩
  · rw [rl, tl, hcfg2]
  · intro e he
    rcases List.mem_append.mp he with he | he
    · exact hlog e he
    · have := (hext e he).2
      rw [hcfg, Option.getD_some] at this
      omega
  · intro e he
    rcases List.mem_map.mp he with ⟨it, _, rfl⟩
    exact ⟨rfl, rfl⟩

/-- Witness for C6 on the concrete mid-turn-1 system superseded by turn 2. -/
theorem C6_no_turn_interleaving_witness :
    ∃ a b, (run_task (twilio_voice_turn c6Sys c7Sid c7P2) c7Sid).log = a ++ b ∧
      (∀ e ∈ a, e.turn ≤ 1) ∧
      (∀ e ∈ b, e.turn = 1 + 1 ∧ e.queue = c6Sys.nextQ) :=
  C6_no_turn_interleaving c6Sys c7Sid c7P2 1 (by decide) (by decide)

/-- C7 counterexample: in the concrete two-turn run, turn 1 installs queue 0,
the completed turn's cleanup removes the queue from the registry (so no
queue instance "remains installed for the call"), and turn 2 installs the
distinct fresh queue 1 — the relay queue is per-turn, not a single object
reused until the call ends. -/
theorem C7_counterexample :
    alookup (twilio_voice_turn c7Sys0 c7Sid c7P1).audioStreams c7Sid = some 0 ∧
    alookup (run_task (twilio_voice_turn c7Sys0 c7Sid c7P1) c7Sid).audioStreams c7Sid =
      none ∧
    alookup (twilio_voice_turn (run_task (twilio_voice_turn c7Sys0 c7Sid c7P1) c7Sid)
      c7Sid c7P2).audioStreams c7Sid = some 1 ∧
    (0 : Nat) ≠ 1 := by
  decide

/-- C7 amended: pushing the end-of-turn sentinel never closes a queue (the
model has no close operation and `_stop_audio_stream` merely enqueues `None`),
but the relay queue is per-turn rather than per-call: each caller utterance
installs a freshly allocated queue instance, distinct from every previously
installed one, and an uninterrupted turn's cleanup removes its queue from
the registry instead of leaving it installed for the next turn. -/
theorem C7_queue_per_turn (s : Sys) (sid : Str) (p : List QItem)
    (hInv : ∀ kv ∈ s.audioStreams, kv.2 < s.nextQ) :
    alookup (twilio_voice_turn s sid p).audioStreams sid = some s.nextQ ∧
    (∀ kv ∈ s.audioStreams, kv.2 ≠ s.nextQ) ∧
    alookup (run_task (twilio_voice_turn s sid p) sid).audioStreams sid = none := by
  obtain ⟨tc, tn, ta, tt, ext, tl, hext⟩ := twilio_voice_turn_spec s sid p
  have hq : alookup (twilio_voice_turn s sid p).audioStreams sid =
      some (TurnTask.mk s.nextQ p).queueId := ta
  obtain ⟨_, hnone, _, _⟩ := run_task_spec (twilio_voice_turn s sid p) sid ⟨s.nextQ, p⟩ tt hq
  refine ⟨ta, ?_, hnone⟩
  intro kv hkv
  have := hInv kv hkv
  omega

/-- Witness for the amended C7 at the post-call-creation system. -/
theorem C7_queue_per_turn_witness :
    alookup (twilio_voice_turn c7Sys0 c7Sid c7P1).audioStreams c7Sid = some c7Sys0.nextQ ∧
    alookup (run_task (twilio_voice_turn c7Sys0 c7Sid c7P1) c7Sid).audioStreams c7Sid =
      none :=
  ⟨(C7_queue_per_turn c7Sys0 c7Sid c7P1 (by decide)).1,
   (C7_queue_per_turn c7Sys0 c7Sid c7P1 (by decide)).2.2⟩

end Trifivend
